import Mathlib

/-!
# Verification of the respiratory-admissions ETL scripts

A shallow embedding of `tools/process_imd.py` and `tools/repair_synthetic_hes.py`.

Conventions of the embedding:
* A timestamp is a number of days relative to the 1970-01-01 epoch (`Date := Int`);
  a nullable value is an `Option`.
* `pd.to_datetime(..., errors="coerce")` is modelled by the input already being
  `Option Date`: an unparseable value arrives as `none`.
* The DuckDB query is modelled clause by clause: SQL `GROUP BY` treats NULL key
  components as equal (plain `=` on `Option`), while the `LEFT JOIN ... ON a = b`
  equality is three-valued and never matches a NULL (`sqlEq`).
* pandas nullable-string concatenation propagates missing values, so `spell_id`
  is `none` whenever a component is missing.
* The textual form of a date used inside `spell_id` is modelled by the decimal
  rendering of the day number (`dateString`): an injective rendering whose
  characters never include the `|` separator, exactly the properties the pandas
  timestamp rendering has.
-/

namespace RespAdm

abbrev Date := Int

/-- The cutoff `pd.Timestamp("1900-01-01")`, as days relative to 1970-01-01. -/
def CUTOFF : Date := -25567

/-- One input episode row, restricted to the columns the pipeline uses. -/
structure Episode where
  pseudo_hesid : Option String
  epikey : Option Int
  admidate : Option Date
  disdate : Option Date
  admimeth : Option String
  diag_4_01 : Option String
  ethnos : Option String
  sex : Option String
  lsoa11 : Option String
  imd_quintile : Option Int
deriving DecidableEq

/-- One row of the IMD lookup parquet (after the rename to `LSOA11`). -/
structure ImdRow where
  lsoa11 : Option String
  imd_quintile : Option Int
deriving DecidableEq

/-! ## `process_imd.py` -/

/-- From `process_imd.py` line 12: `imd_quintile = (imd_decile - 1) // 2 + 1`
(Python `//` is floor division). -/
def imd_quintile_of_decile (d : Int) : Int := (d - 1).fdiv 2 + 1

/-! ## Lexicographic order on strings

DuckDB's `ORDER BY v` on VARCHAR and Python's `sorted` both compare strings
lexicographically by code point; `strLt` is that order, written structurally
so that the kernel can evaluate it. -/

/-- Lexicographic strictly-less on character lists, by code point. -/
def strLtB : List Char → List Char → Bool
  | [], [] => false
  | [], _ :: _ => true
  | _ :: _, [] => false
  | a :: as, b :: bs =>
    if a.toNat < b.toNat then true
    else if b.toNat < a.toNat then false
    else strLtB as bs

/-- Lexicographic strictly-less on strings. -/
def strLt (a b : String) : Bool := strLtB a.data b.data

/-- Lexicographic less-or-equal on strings. -/
def strLe (a b : String) : Bool := !(strLt b a)

/-- The sort order of Python `sorted` on filenames, as a relation. -/
abbrev fileLe (a b : String) : Prop := strLe a b = true

/-! ## `list_year_csvs` -/

/-- Python list slice `l[-n:]` for an integer `n`: start index `-n`,
clamped by Python slice semantics. -/
def pySliceFromNeg (l : List String) (n : Int) : List String :=
  let len : Int := l.length
  let start : Int := -n
  let b : Int := if start < 0 then max 0 (len + start) else min len start
  l.drop b.toNat

/-- The loader `list_year_csvs`: sort the matching filenames, keep the last `n_years`
when a limit is configured, and raise `FileNotFoundError` when nothing
is left.  The `glob` result is the `files` argument. -/
def list_year_csvs (files : List String) (n_years : Option Int) :
    Except String (List String) :=
  let fs := List.insertionSort fileLe files
  let fs2 := match n_years with
    | some n => pySliceFromNeg fs n
    | none => fs
  if fs2.isEmpty then Except.error "No CSV files found under path" else Except.ok fs2

/-! ## `attach_imd` -/

/-- Helper for `drop_duplicates`: drop every row whose key was already seen. -/
def dropDupAux (seen : List (Option String)) : List ImdRow → List ImdRow
  | [] => []
  | r :: rs =>
    if r.lsoa11 ∈ seen then dropDupAux seen rs
    else r :: dropDupAux (r.lsoa11 :: seen) rs

/-- pandas `drop_duplicates("LSOA11")`: keep the first row for each key
(pandas treats two missing keys as duplicates of each other). -/
def dropDuplicatesLsoa (l : List ImdRow) : List ImdRow := dropDupAux [] l

/-- The merge result rows produced by one left row: one row per matching
lookup row, or the row with a missing quintile when nothing matches.
pandas matches a missing key to a missing key. -/
def mergeRow (imd : List ImdRow) (e : Episode) : List Episode :=
  let ms := imd.filter (fun r => r.lsoa11 == e.lsoa11)
  if ms.isEmpty then [{ e with imd_quintile := none }]
  else ms.map (fun r => { e with imd_quintile := r.imd_quintile })

/-- pandas left merge on `LSOA11`. -/
def leftMergeImd (df : List Episode) (imd : List ImdRow) : List Episode :=
  df.flatMap (mergeRow imd)

/-- From `attach_imd` lines 83-90: deduplicate the lookup by geography code,
then left-join the quintile onto the episodes. -/
def attach_imd (df : List Episode) (imd : List ImdRow) : List Episode :=
  leftMergeImd df (dropDuplicatesLsoa imd)

/-! ## Date repair (`clean_and_collapse` lines 98-103) -/

/-- Nulling of pre-1900 sentinel dates (`df.loc[df[c] < CUTOFF, c] = pd.NaT`);
an unparseable value is already `none` after the coercing parse. -/
def cleanDate (d : Option Date) : Option Date :=
  match d with
  | none => none
  | some x => if x < CUTOFF then none else some x

/-- Apply the date repair to both date fields of an episode, independently. -/
def cleanDates (e : Episode) : Episode :=
  { e with admidate := cleanDate e.admidate, disdate := cleanDate e.disdate }

/-- Per-episode length of stay, lines 102-103:
`(DISDATE - ADMIDATE).days + 1`, with non-positive values masked to missing. -/
def losEpisode (e : Episode) : Option Int :=
  match e.disdate, e.admidate with
  | some d, some a => if d - a + 1 ≤ 0 then none else some (d - a + 1)
  | _, _ => none

/-! ## The DuckDB collapse query (lines 113-187) -/

/-- The grouping key `(PSEUDO_HESID, ADMIDATE, DISDATE)`.  SQL `GROUP BY`
treats NULLs as equal, which plain equality of `Option`s captures. -/
abbrev SpellKey := Option String × Option Date × Option Date

def episodeKey (e : Episode) : SpellKey := (e.pseudo_hesid, e.admidate, e.disdate)

/-- The episodes of one spell group. -/
def groupOf (df : List Episode) (k : SpellKey) : List Episode :=
  df.filter (fun e => episodeKey e == k)

/-- The distinct grouping keys of the episode table. -/
def spellKeys (df : List Episode) : List SpellKey := (df.map episodeKey).dedup

/-- SQL (three-valued) equality used in `JOIN ... ON`: a comparison with
NULL is not a match. -/
def sqlEq {α : Type} [BEq α] (a b : Option α) : Bool :=
  match a, b with
  | some x, some y => x == y
  | _, _ => false

/-- The join condition `b.PSEUDO_HESID=d.PSEUDO_HESID AND b.adm=d.adm AND b.dis=d.dis`. -/
def sqlKeyMatch (k j : SpellKey) : Bool :=
  sqlEq k.1 j.1 && sqlEq k.2.1 j.2.1 && sqlEq k.2.2 j.2.2

/-- The ranking `ROW_NUMBER() OVER (ORDER BY cnt DESC, v)`: does candidate `a` come
strictly before candidate `b` (more occurrences, or equally many and
lexicographically smaller)? -/
def precedes (vals : List String) (a b : String) : Bool :=
  decide (vals.count b < vals.count a) ||
    (decide (vals.count a = vals.count b) && strLt a b)

/-- The `v` of the `rn = 1` row of a `*_mode` CTE for one group: among the
distinct non-null values, the one that precedes all others; `none` when
the group has no non-null value. -/
def modeLex (opts : List (Option String)) : Option String :=
  let vals := opts.filterMap id
  vals.dedup.foldl (fun acc v =>
    match acc with
    | none => some v
    | some w => if precedes vals v w then some v else some w) none

/-- A `*_mode` CTE: one row per grouping key that has a non-null value of
the field, holding the tie-broken mode of that field. -/
def modeTable (df : List Episode) (f : Episode → Option String) :
    List (SpellKey × String) :=
  (spellKeys df).filterMap (fun k =>
    (modeLex ((groupOf df k).map f)).map (fun m => (k, m)))

/-- The `LEFT JOIN` of the base row against a mode CTE: the joined value,
or NULL when no row of the CTE matches under SQL equality. -/
def joinMode (tbl : List (SpellKey × String)) (k : SpellKey) : Option String :=
  match tbl.find? (fun row => sqlKeyMatch k row.1) with
  | some row => some row.2
  | none => none

/-- The expression `LEFT(COALESCE(CAST(ADMIMETH AS VARCHAR), ''), 1) = '2'` as a SQL
(three-valued) value: thanks to the COALESCE the compared operand is never
NULL, so the result is always a real boolean. -/
def emergExpr (m : Option String) : Option Bool :=
  some ((m.getD "").take 1 == "2")

/-- SQL `BOOL_OR` aggregate: NULL inputs are ignored; the result is NULL
only when there is no non-null input. -/
def boolOr (l : List (Option Bool)) : Option Bool :=
  let bs := l.filterMap id
  if bs.isEmpty then none else some (bs.any id)

/-- SQL `MAX` aggregate over a nullable integer column. -/
def maxAgg (l : List (Option Int)) : Option Int :=
  (l.filterMap id).foldl (fun acc x =>
    match acc with
    | none => some x
    | some y => some (max y x)) none

/-- SQL `ANY_VALUE`: some non-null value of the group (the first one here),
NULL when there is none. -/
def anyValue (l : List (Option Int)) : Option Int := (l.filterMap id).head?

/-- The spell-level output row. -/
structure Spell where
  pseudo_hesid : Option String
  adm : Option Date
  dis : Option Date
  n_episodes : Nat
  los_days : Option Int
  any_emerg : Option Bool
  imd_quintile : Option Int
  primary_diag : Option String
  ethnicity : Option String
  sex : Option String
  spell_id : Option String
deriving DecidableEq

/-- The `base` CTE row for one grouping key. -/
def baseSpell (df : List Episode) (k : SpellKey) : Spell :=
  let g := groupOf df k
  { pseudo_hesid := k.1
    adm := k.2.1
    dis := k.2.2
    n_episodes := ((g.filterMap Episode.epikey).dedup).length
    los_days := maxAgg (g.map losEpisode)
    any_emerg := boolOr (g.map (fun e => emergExpr e.admimeth))
    imd_quintile := anyValue (g.map Episode.imd_quintile)
    primary_diag := none
    ethnicity := none
    sex := none
    spell_id := none }

/-- One row of the final SELECT: the base row left-joined against the three
mode CTEs. -/
def collapseRow (df : List Episode) (k : SpellKey) : Spell :=
  { baseSpell df k with
      primary_diag := joinMode (modeTable df Episode.diag_4_01) k
      ethnicity := joinMode (modeTable df Episode.ethnos) k
      sex := joinMode (modeTable df Episode.sex) k }

/-- The whole DuckDB query: one output row per distinct grouping key. -/
def collapseQuery (df : List Episode) : List Spell :=
  (spellKeys df).map (collapseRow df)

/-! ## Post-aggregation steps (lines 190-200) -/

/-- Line 190: `spell["los_days"] = (spell["dis"] - spell["adm"]).dt.days + 1`,
a group-level recompute that overwrites the aggregated per-episode maximum. -/
def recomputeLos (s : Spell) : Spell :=
  { s with los_days :=
      match s.dis, s.adm with
      | some d, some a => some (d - a + 1)
      | _, _ => none }

/-- Lines 191-192: keep a row whose recomputed LOS is missing or lies in
`[1, 365*2]`. -/
def losOk (s : Spell) : Bool :=
  match s.los_days with
  | none => true
  | some l => decide (1 ≤ l) && decide (l ≤ 365 * 2)

/-- Little-endian decimal digits of `n`, with explicit fuel so that the
definition is structurally recursive (and hence kernel-evaluable). -/
def digitsRev : Nat → Nat → List Nat
  | 0, _ => []
  | _ + 1, 0 => []
  | fuel + 1, n + 1 => (n + 1) % 10 :: digitsRev fuel ((n + 1) / 10)

/-- The decimal digit characters of a natural number. -/
def natChars (n : Nat) : List Char :=
  if n = 0 then ['0'] else ((digitsRev n n).map Nat.digitChar).reverse

/-- The characters of the textual form of a date value. -/
def dateChars (d : Date) : List Char :=
  if d < 0 then '-' :: natChars (-d).toNat else natChars d.toNat

/-- Conversion `astype("string")` of a present date value. -/
def dateString (d : Date) : String := String.mk (dateChars d)

/-- Lines 196-200: `spell_id = PSEUDO_HESID | adm | dis` under the pandas
nullable string dtype, whose concatenation propagates missing values: a
spell with any missing component gets a missing id. -/
def spellIdOf (s : Spell) : Option String :=
  match s.pseudo_hesid, s.adm, s.dis with
  | some p, some a, some d =>
      some (p ++ "|" ++ dateString a ++ "|" ++ dateString d)
  | _, _, _ => none

def addSpellId (s : Spell) : Spell := { s with spell_id := spellIdOf s }

/-- The pipeline `clean_and_collapse`: repair the dates, collapse episodes to spells,
recompute the group-level LOS, filter on it, and attach the readable id. -/
def clean_and_collapse (df : List Episode) : List Spell :=
  let df1 := df.map cleanDates
  (((collapseQuery df1).map recomputeLos).filter losOk).map addSpellId

/-! ## Spec-side predicates and concrete inputs -/

/-- Spec side, for comparison with the code: `r` is the statistical mode of
the non-null values of `opts`, ties broken by ascending lexicographic order
of the value; `r` is missing exactly when there is no non-null value. -/
def specIsMode (r : Option String) (opts : List (Option String)) : Prop :=
  match r with
  | none => opts.filterMap id = []
  | some m =>
      m ∈ opts.filterMap id ∧
        ∀ v ∈ opts.filterMap id,
          (opts.filterMap id).count v ≤ (opts.filterMap id).count m ∧
            ((opts.filterMap id).count v = (opts.filterMap id).count m →
              strLe m v = true)

instance (r : Option String) (opts : List (Option String)) :
    Decidable (specIsMode r opts) :=
  match r with
  | none => inferInstanceAs (Decidable (opts.filterMap id = []))
  | some m =>
      inferInstanceAs (Decidable (m ∈ opts.filterMap id ∧
        ∀ v ∈ opts.filterMap id,
          (opts.filterMap id).count v ≤ (opts.filterMap id).count m ∧
            ((opts.filterMap id).count v = (opts.filterMap id).count m →
              strLe m v = true)))

/-- A concrete episode: missing admission date, non-null diagnosis. -/
def epC1 : Episode :=
  { pseudo_hesid := some "P1", epikey := some 1, admidate := none,
    disdate := some 10, admimeth := none, diag_4_01 := some "A",
    ethnos := none, sex := none, lsoa11 := none, imd_quintile := none }

/-- A concrete two-episode table whose two spell groups both have a missing
admission date. -/
def dfC4 : List Episode := [epC1, { epC1 with pseudo_hesid := some "P2" }]

/-- A concrete four-episode spell group with diagnosis codes B, A, A, B. -/
def dfB : List Episode :=
  [{ pseudo_hesid := some "P", epikey := some 1, admidate := some 0,
     disdate := some 1, admimeth := none, diag_4_01 := some "B",
     ethnos := none, sex := none, lsoa11 := none, imd_quintile := none },
   { pseudo_hesid := some "P", epikey := some 2, admidate := some 0,
     disdate := some 1, admimeth := none, diag_4_01 := some "A",
     ethnos := none, sex := none, lsoa11 := none, imd_quintile := none },
   { pseudo_hesid := some "P", epikey := some 3, admidate := some 0,
     disdate := some 1, admimeth := none, diag_4_01 := some "A",
     ethnos := none, sex := none, lsoa11 := none, imd_quintile := none },
   { pseudo_hesid := some "P", epikey := some 4, admidate := some 0,
     disdate := some 1, admimeth := none, diag_4_01 := some "B",
     ethnos := none, sex := none, lsoa11 := none, imd_quintile := none }]

/-- The single output spell of `dfB`. -/
def spB : Spell :=
  addSpellId (recomputeLos (collapseRow (dfB.map cleanDates)
    (some "P", some 0, some 1)))

/-- A single episode spanning days 0..729: recomputed LOS exactly 730. -/
def ep730 : Episode :=
  { pseudo_hesid := some "P", epikey := some 1, admidate := some 0,
    disdate := some 729, admimeth := none, diag_4_01 := none,
    ethnos := none, sex := none, lsoa11 := none, imd_quintile := none }

/-- A single episode spanning days 0..730: recomputed LOS 731. -/
def ep731 : Episode := { ep730 with disdate := some 730 }

/-- A single fully-dated episode, for the `spell_id` witness. -/
def epW : Episode :=
  { pseudo_hesid := some "P1", epikey := some 1, admidate := some 3,
    disdate := some 12, admimeth := none, diag_4_01 := none,
    ethnos := none, sex := none, lsoa11 := none, imd_quintile := none }

/-- The single output spell of `[epW]`. -/
def spW : Spell :=
  addSpellId (recomputeLos (collapseRow ([epW].map cleanDates)
    (some "P1", some 3, some 12)))

/-! ## Helper lemmas: the lexicographic order -/

theorem bool_eq_false {b : Bool} (h : ¬ b = true) : b = false := by
  cases b with
  | false => rfl
  | true => exact absurd rfl h

theorem char_toNat_inj {a b : Char} (h : a.toNat = b.toNat) : a = b := by
  unfold Char.toNat at h
  exact Char.eq_of_val_eq (UInt32.toNat.inj h)

theorem strLtB_cons {a b : Char} {as bs : List Char} :
    strLtB (a :: as) (b :: bs) = true ↔
      a.toNat < b.toNat ∨ (a.toNat = b.toNat ∧ strLtB as bs = true) := by
  rw [strLtB]
  split_ifs with h1 h2
  · simp only [true_iff]
    exact Or.inl h1
  · simp only [false_iff]
    rintro (h | ⟨he, _⟩) <;> omega
  · have he : a.toNat = b.toNat := by omega
    constructor
    · intro h
      exact Or.inr ⟨he, h⟩
    · rintro (h | ⟨_, h⟩)
      · omega
      · exact h

theorem strLtB_irrefl (l : List Char) : strLtB l l = false := by
  induction l with
  | nil => rfl
  | cons a as ih => rw [strLtB]; simp [ih]

theorem strLtB_trans : ∀ (a b c : List Char),
    strLtB a b = true → strLtB b c = true → strLtB a c = true
  | [], b, c, h1, h2 => by
    cases b with
    | nil => simp [strLtB] at h1
    | cons b bs =>
      cases c with
      | nil => simp [strLtB] at h2
      | cons c cs => rfl
  | _ :: _, [], _, h1, _ => by simp [strLtB] at h1
  | _ :: _, _ :: _, [], _, h2 => by simp [strLtB] at h2
  | a :: as, b :: bs, c :: cs, h1, h2 => by
    rw [strLtB_cons] at h1 h2 ⊢
    rcases h1 with h1 | ⟨h1e, h1t⟩
    · rcases h2 with h2 | ⟨h2e, _⟩
      · exact Or.inl (by omega)
      · exact Or.inl (by omega)
    · rcases h2 with h2 | ⟨h2e, h2t⟩
      · exact Or.inl (by omega)
      · exact Or.inr ⟨by omega, strLtB_trans as bs cs h1t h2t⟩

theorem strLtB_connex : ∀ (a b : List Char),
    strLtB a b = false → strLtB b a = false → a = b
  | [], [], _, _ => rfl
  | [], _ :: _, h1, _ => by simp [strLtB] at h1
  | _ :: _, [], _, h2 => by simp [strLtB] at h2
  | a :: as, b :: bs, h1, h2 => by
    rw [strLtB] at h1 h2
    split_ifs at h1 h2 with g1 g2
    have he : a = b := char_toNat_inj (by omega)
    have ht : as = bs := strLtB_connex as bs h1 h2
    rw [he, ht]

theorem strLt_irrefl (a : String) : strLt a a = false := strLtB_irrefl a.data

theorem strLt_trans {a b c : String} (h1 : strLt a b = true) (h2 : strLt b c = true) :
    strLt a c = true := strLtB_trans a.data b.data c.data h1 h2

theorem strLt_asymm {a b : String} (h1 : strLt a b = true) : strLt b a = false := by
  by_contra hc
  have h2 : strLt b a = true := by
    cases h : strLt b a with
    | false => exact absurd h hc
    | true => rfl
  have := strLt_trans h1 h2
  rw [strLt_irrefl] at this
  exact Bool.false_ne_true this

theorem strLt_connex {a b : String} (h1 : strLt a b = false) (h2 : strLt b a = false) :
    a = b := String.ext (strLtB_connex a.data b.data h1 h2)

/-! ## Helper lemmas: the tie-broken mode -/

theorem precedes_iff {vals : List String} {a b : String} :
    precedes vals a b = true ↔
      vals.count b < vals.count a ∨
        (vals.count a = vals.count b ∧ strLt a b = true) := by
  simp [precedes]

theorem precedes_irrefl (vals : List String) (a : String) :
    precedes vals a a = false := by
  simp [precedes, strLt_irrefl]

theorem precedes_trans {vals : List String} {a b c : String}
    (h1 : precedes vals a b = true) (h2 : precedes vals b c = true) :
    precedes vals a c = true := by
  rw [precedes_iff] at h1 h2 ⊢
  rcases h1 with h1 | ⟨h1e, h1l⟩
  · rcases h2 with h2 | ⟨h2e, _⟩
    · exact Or.inl (by omega)
    · exact Or.inl (by omega)
  · rcases h2 with h2 | ⟨h2e, h2l⟩
    · exact Or.inl (by omega)
    · exact Or.inr ⟨by omega, strLt_trans h1l h2l⟩

theorem precedes_connex {vals : List String} {a b : String}
    (h1 : precedes vals a b = false) (h2 : precedes vals b a = false) : a = b := by
  have n1 : ¬ precedes vals a b = true := by simp [h1]
  have n2 : ¬ precedes vals b a = true := by simp [h2]
  rw [precedes_iff] at n1 n2
  push_neg at n1 n2
  have hc : vals.count a = vals.count b := by omega
  exact strLt_connex (bool_eq_false (n1.2 hc)) (bool_eq_false (n2.2 hc.symm))

/-- The fold step of `modeLex`. -/
def modeStep (vals : List String) (acc : Option String) (v : String) : Option String :=
  match acc with
  | none => some v
  | some w => if precedes vals v w then some v else some w

theorem modeLex_eq_fold (opts : List (Option String)) :
    modeLex opts =
      (opts.filterMap id).dedup.foldl (modeStep (opts.filterMap id)) none := rfl

theorem modeFold_some (vals : List String) : ∀ (cand : List String) (w : String),
    ∃ m, cand.foldl (modeStep vals) (some w) = some m ∧
      (m = w ∨ m ∈ cand) ∧ precedes vals w m = false ∧
      ∀ x ∈ cand, precedes vals x m = false := by
  intro cand
  induction cand with
  | nil =>
    intro w
    exact ⟨w, rfl, Or.inl rfl, precedes_irrefl vals w, by simp⟩
  | cons v cs ih =>
    intro w
    by_cases hv : precedes vals v w = true
    · have hstep : modeStep vals (some w) v = some v := by simp [modeStep, hv]
      obtain ⟨m, hm, hmem, hwm, hall⟩ := ih v
      refine ⟨m, by simpa [hstep] using hm, ?_, ?_, ?_⟩
      · rcases hmem with h | h
        · exact Or.inr (by simp [h])
        · exact Or.inr (by simp [h])
      · cases hp : precedes vals w m with
        | false => rfl
        | true =>
          have : precedes vals v m = true := precedes_trans hv hp
          rw [hwm] at this
          exact absurd this (by simp)
      · intro x hx
        rcases List.mem_cons.mp hx with h | h
        · rw [h]; exact hwm
        · exact hall x h
    · have hvf : precedes vals v w = false := by
        cases h : precedes vals v w with
        | false => rfl
        | true => exact absurd h hv
      have hstep : modeStep vals (some w) v = some w := by simp [modeStep, hvf]
      obtain ⟨m, hm, hmem, hwm, hall⟩ := ih w
      refine ⟨m, by simpa [hstep] using hm, ?_, hwm, ?_⟩
      · rcases hmem with h | h
        · exact Or.inl h
        · exact Or.inr (by simp [h])
      · intro x hx
        rcases List.mem_cons.mp hx with h | h
        · -- x = v : v cannot precede m, because v does not precede w and w is ≼ m
          subst h
          cases hp : precedes vals x m with
          | false => rfl
          | true =>
            by_cases hwv : precedes vals w x = true
            · -- w strictly precedes v and v strictly precedes m : w strictly precedes m
              have : precedes vals w m = true := precedes_trans hwv hp
              rw [hwm] at this
              exact absurd this (by simp)
            · have hwvf : precedes vals w x = false := by
                cases hq : precedes vals w x with
                | false => rfl
                | true => exact absurd hq hwv
              have : x = w := precedes_connex hvf hwvf
              rw [this, hwm] at hp
              exact absurd hp (by simp)
        · exact hall x h

theorem modeLex_eq_none_iff (opts : List (Option String)) :
    modeLex opts = none ↔ opts.filterMap id = [] := by
  rw [modeLex_eq_fold]
  rcases h : (opts.filterMap id).dedup with _ | ⟨v, cs⟩
  · have hnil := (List.dedup_eq_nil _).mp h
    simp [h, hnil]
  · have h1 : (v :: cs).foldl (modeStep (opts.filterMap id)) none =
        cs.foldl (modeStep (opts.filterMap id)) (some v) := rfl
    obtain ⟨m, hm, _⟩ := modeFold_some (opts.filterMap id) cs v
    rw [h1, hm]
    constructor
    · intro hc; exact absurd hc (by simp)
    · intro hc
      have h0 : (opts.filterMap id).dedup = [] := (List.dedup_eq_nil _).mpr hc
      exact absurd (h0.symm.trans h) (by simp)

theorem modeLex_spec {opts : List (Option String)} {m : String}
    (h : modeLex opts = some m) :
    m ∈ opts.filterMap id ∧
      ∀ v ∈ opts.filterMap id,
        (opts.filterMap id).count v ≤ (opts.filterMap id).count m ∧
          ((opts.filterMap id).count v = (opts.filterMap id).count m →
            strLt v m = false) := by
  rw [modeLex_eq_fold] at h
  rcases hd : (opts.filterMap id).dedup with _ | ⟨v, cs⟩
  · rw [hd] at h; exact absurd h (by simp)
  · rw [hd] at h
    have h1 : (v :: cs).foldl (modeStep (opts.filterMap id)) none =
        cs.foldl (modeStep (opts.filterMap id)) (some v) := rfl
    rw [h1] at h
    obtain ⟨m', hm', hmem, hvm, hall⟩ := modeFold_some (opts.filterMap id) cs v
    rw [hm'] at h
    have hmm : m' = m := by injection h
    subst hmm
    have hmemd : m' ∈ (opts.filterMap id).dedup := by
      rw [hd]
      rcases hmem with h' | h'
      · simp [h']
      · simp [h']
    constructor
    · exact List.mem_dedup.mp hmemd
    · intro x hx
      have hxd : x ∈ (opts.filterMap id).dedup := List.mem_dedup.mpr hx
      rw [hd] at hxd
      have hpx : precedes (opts.filterMap id) x m' = false := by
        rcases List.mem_cons.mp hxd with h' | h'
        · rw [h']; exact hvm
        · exact hall x h'
      have npx : ¬ precedes (opts.filterMap id) x m' = true := by simp [hpx]
      rw [precedes_iff] at npx
      push_neg at npx
      refine ⟨by omega, ?_⟩
      intro hcnt
      exact bool_eq_false (npx.2 (by omega))

/-! ## Helper lemmas: the collapse pipeline -/

theorem mem_spellKeys {df : List Episode} {k : SpellKey} :
    k ∈ spellKeys df ↔ ∃ e ∈ df, episodeKey e = k := by
  unfold spellKeys
  rw [List.mem_dedup, List.mem_map]

theorem mem_groupOf {df : List Episode} {k : SpellKey} {e : Episode} :
    e ∈ groupOf df k ↔ e ∈ df ∧ episodeKey e = k := by
  unfold groupOf
  rw [List.mem_filter]
  simp

theorem sqlKeyMatch_self {p : String} {a d : Date} :
    sqlKeyMatch (some p, some a, some d) (some p, some a, some d) = true := by
  simp [sqlKeyMatch, sqlEq]

theorem sqlKeyMatch_eq {p : String} {a d : Date} {j : SpellKey}
    (h : sqlKeyMatch (some p, some a, some d) j = true) :
    j = (some p, some a, some d) := by
  rcases j with ⟨j1, j2, j3⟩
  unfold sqlKeyMatch sqlEq at h
  rcases j1 with _ | q <;> rcases j2 with _ | b <;> rcases j3 with _ | e <;>
    simp_all

theorem joinMode_modeTable (df : List Episode) (f : Episode → Option String)
    (p : String) (a d : Date) :
    joinMode (modeTable df f) (some p, some a, some d) =
      modeLex ((groupOf df (some p, some a, some d)).map f) := by
  set k : SpellKey := (some p, some a, some d) with hk
  unfold joinMode
  rcases hf : (modeTable df f).find? (fun row => sqlKeyMatch k row.1) with _ | row
  · -- no row matched: the group can have no non-null value of the field
    rw [hf]
    rcases hm : modeLex ((groupOf df k).map f) with _ | m
    · rfl
    · exfalso
      have hne : ((groupOf df k).map f).filterMap id ≠ [] := by
        intro hc
        rw [(modeLex_eq_none_iff _).mpr hc] at hm
        exact Option.noConfusion hm
      have hgne : groupOf df k ≠ [] := by
        intro hc
        rw [hc] at hne
        exact hne rfl
      obtain ⟨e, he⟩ := List.exists_mem_of_ne_nil _ hgne
      have hkmem : k ∈ spellKeys df :=
        mem_spellKeys.mpr ⟨e, (mem_groupOf.mp he).1, (mem_groupOf.mp he).2⟩
      have hrow : (k, m) ∈ modeTable df f := by
        unfold modeTable
        exact List.mem_filterMap.mpr ⟨k, hkmem, by rw [hm]; rfl⟩
      have := List.find?_eq_none.mp hf _ hrow
      exact this (by rw [hk]; exact sqlKeyMatch_self)
  · rw [hf]
    have hmem := List.mem_of_find?_eq_some hf
    have hmatch := List.find?_some hf
    have hkey : row.1 = k := sqlKeyMatch_eq hmatch
    unfold modeTable at hmem
    obtain ⟨j, _, hj⟩ := List.mem_filterMap.mp hmem
    rcases ho : modeLex ((groupOf df j).map f) with _ | m
    · rw [ho] at hj
      exact absurd hj (by simp)
    · rw [ho] at hj
      simp only [Option.map_some'] at hj
      have hpair : (j, m) = row := by injection hj
      have hjk : j = k := by
        rw [← hpair] at hkey
        exact hkey
      show some row.2 = modeLex ((groupOf df k).map f)
      rw [← hpair, ← hjk, ho]

/-- Equation for `clean_and_collapse`, with the maps fused. -/
theorem clean_and_collapse_eq (df : List Episode) :
    clean_and_collapse df =
      (((spellKeys (df.map cleanDates)).map
            (fun k => recomputeLos (collapseRow (df.map cleanDates) k))).filter
          losOk).map addSpellId := by
  unfold clean_and_collapse collapseQuery
  simp only [List.map_map]
  rfl

theorem mem_clean_and_collapse {df : List Episode} {s : Spell} :
    s ∈ clean_and_collapse df ↔
      ∃ k ∈ spellKeys (df.map cleanDates),
        losOk (recomputeLos (collapseRow (df.map cleanDates) k)) = true ∧
        s = addSpellId (recomputeLos (collapseRow (df.map cleanDates) k)) := by
  rw [clean_and_collapse_eq]
  constructor
  · intro hs
    rcases List.mem_map.mp hs with ⟨t, ht, rfl⟩
    rcases List.mem_filter.mp ht with ⟨ht2, hok⟩
    rcases List.mem_map.mp ht2 with ⟨k, hk, rfl⟩
    exact ⟨k, hk, hok, rfl⟩
  · rintro ⟨k, hk, hok, rfl⟩
    exact List.mem_map.mpr ⟨_, List.mem_filter.mpr ⟨List.mem_map.mpr ⟨k, hk, rfl⟩, hok⟩, rfl⟩

/-! Field-tracking equations for the post-aggregation steps. -/

theorem collapseRow_key (df : List Episode) (k : SpellKey) :
    (collapseRow df k).pseudo_hesid = k.1 ∧ (collapseRow df k).adm = k.2.1 ∧
      (collapseRow df k).dis = k.2.2 := ⟨rfl, rfl, rfl⟩

theorem outRow_key (df : List Episode) (k : SpellKey) :
    (addSpellId (recomputeLos (collapseRow df k))).pseudo_hesid = k.1 ∧
      (addSpellId (recomputeLos (collapseRow df k))).adm = k.2.1 ∧
      (addSpellId (recomputeLos (collapseRow df k))).dis = k.2.2 := ⟨rfl, rfl, rfl⟩

theorem outRow_primary_diag (df : List Episode) (k : SpellKey) :
    (addSpellId (recomputeLos (collapseRow df k))).primary_diag =
      joinMode (modeTable df Episode.diag_4_01) k := rfl

theorem outRow_ethnicity (df : List Episode) (k : SpellKey) :
    (addSpellId (recomputeLos (collapseRow df k))).ethnicity =
      joinMode (modeTable df Episode.ethnos) k := rfl

theorem outRow_sex (df : List Episode) (k : SpellKey) :
    (addSpellId (recomputeLos (collapseRow df k))).sex =
      joinMode (modeTable df Episode.sex) k := rfl

theorem outRow_any_emerg (df : List Episode) (k : SpellKey) :
    (addSpellId (recomputeLos (collapseRow df k))).any_emerg =
      boolOr ((groupOf df k).map (fun e => emergExpr e.admimeth)) := rfl

theorem outRow_los (df : List Episode) (k : SpellKey) :
    (addSpellId (recomputeLos (collapseRow df k))).los_days =
      (match k.2.2, k.2.1 with
        | some d, some a => some (d - a + 1)
        | _, _ => none) := rfl

theorem outRow_spell_id (df : List Episode) (k : SpellKey) :
    (addSpellId (recomputeLos (collapseRow df k))).spell_id =
      spellIdOf (recomputeLos (collapseRow df k)) := rfl

theorem specIsMode_modeLex (opts : List (Option String)) :
    specIsMode (modeLex opts) opts := by
  rcases h : modeLex opts with _ | m
  · exact (modeLex_eq_none_iff _).mp h
  · obtain ⟨h1, h2⟩ := modeLex_spec h
    exact ⟨h1, fun v hv =>
      ⟨(h2 v hv).1, fun hc => by simp [strLe, (h2 v hv).2 hc]⟩⟩

/-- The three key fields of an output row determine its grouping key. -/
theorem outRow_key_eq {df : List Episode} {k : SpellKey} {p : String} {a d : Date}
    (hp : (addSpellId (recomputeLos (collapseRow df k))).pseudo_hesid = some p)
    (ha : (addSpellId (recomputeLos (collapseRow df k))).adm = some a)
    (hd : (addSpellId (recomputeLos (collapseRow df k))).dis = some d) :
    k = (some p, some a, some d) := by
  obtain ⟨h1, h2, h3⟩ := outRow_key df k
  rcases k with ⟨k1, k2, k3⟩
  rw [h1] at hp
  rw [h2] at ha
  rw [h3] at hd
  have e1 : k1 = some p := hp
  have e2 : k2 = some a := ha
  have e3 : k3 = some d := hd
  rw [e1, e2, e3]

/-! ## Claim C1 -/

/-- C1 (amended): for every spell group whose grouping key is fully non-null,
each of `primary_diag`, `ethnicity` and `sex` is the statistical mode of that
field's non-null values within the group, computed independently per field,
ties broken by the lexicographically smallest value.  (Groups with a null key
component instead get null categorical fields, because the SQL LEFT JOIN
equality never matches a NULL — see the counterexample.) -/
theorem C1_mode_fields (df : List Episode) (s : Spell)
    (hs : s ∈ clean_and_collapse df) (p : String) (a d : Date)
    (hp : s.pseudo_hesid = some p) (ha : s.adm = some a) (hd : s.dis = some d) :
    specIsMode s.primary_diag
        ((groupOf (df.map cleanDates) (some p, some a, some d)).map
          Episode.diag_4_01) ∧
      specIsMode s.ethnicity
        ((groupOf (df.map cleanDates) (some p, some a, some d)).map
          Episode.ethnos) ∧
      specIsMode s.sex
        ((groupOf (df.map cleanDates) (some p, some a, some d)).map
          Episode.sex) := by
  obtain ⟨k, hk, hok, rfl⟩ := mem_clean_and_collapse.mp hs
  have hkey : k = (some p, some a, some d) := outRow_key_eq hp ha hd
  subst hkey
  rw [outRow_primary_diag, outRow_ethnicity, outRow_sex]
  rw [joinMode_modeTable, joinMode_modeTable, joinMode_modeTable]
  exact ⟨specIsMode_modeLex _, specIsMode_modeLex _, specIsMode_modeLex _⟩

/-- C1 counterexample: in a spell group whose admission date is missing, the
output `primary_diag` is null even though the group has the non-null
diagnosis value "A" — the claim as stated fails for such groups. -/
theorem C1_counterexample :
    ¬ ∀ s ∈ clean_and_collapse [epC1],
        specIsMode s.primary_diag
          ((groupOf ([epC1].map cleanDates)
              (s.pseudo_hesid, s.adm, s.dis)).map Episode.diag_4_01) := by
  decide

/-- C1 witness: the group with diagnosis codes B, A, A, B (a 2-2 tie)
yields `primary_diag = "A"`, and the theorem applies to it. -/
theorem C1_mode_fields_witness :
    spB ∈ clean_and_collapse dfB ∧ spB.primary_diag = some "A" ∧
      specIsMode spB.primary_diag
        ((groupOf (dfB.map cleanDates) (some "P", some 0, some 1)).map
          Episode.diag_4_01) :=
  ⟨by decide, by decide,
    (C1_mode_fields dfB spB (by decide) "P" 0 1 (by decide) (by decide)
      (by decide)).1⟩

/-! ## Claim C2 -/

/-- Two output rows built from different grouping keys differ. -/
theorem outRow_inj {df : List Episode} {k j : SpellKey}
    (h : addSpellId (recomputeLos (collapseRow df k)) =
      addSpellId (recomputeLos (collapseRow df j))) : k = j := by
  obtain ⟨hk1, hk2, hk3⟩ := outRow_key df k
  obtain ⟨hj1, hj2, hj3⟩ := outRow_key df j
  have e1 := congrArg Spell.pseudo_hesid h
  have e2 := congrArg Spell.adm h
  have e3 := congrArg Spell.dis h
  rw [hk1, hj1] at e1
  rw [hk2, hj2] at e2
  rw [hk3, hj3] at e3
  rcases k with ⟨k1, k2, k3⟩
  rcases j with ⟨j1, j2, j3⟩
  have f1 : k1 = j1 := e1
  have f2 : k2 = j2 := e2
  have f3 : k3 = j3 := e3
  rw [f1, f2, f3]

theorem losOk_iff (t : Spell) :
    losOk t = true ↔
      (t.los_days = none ∨ ∃ l, t.los_days = some l ∧ 1 ≤ l ∧ l ≤ 730) := by
  rcases h : t.los_days with _ | l <;> simp [losOk, h]

/-- C2: the output LOS is recomputed from the group-level dates; when both
dates are present it equals discharge − admission + 1 and lies in [1, 730];
a spell whose recomputed LOS falls outside [1, 730] is dropped, one with a
missing LOS (a missing date) is retained. -/
theorem C2_los_filter (df : List Episode) :
    (∀ s ∈ clean_and_collapse df,
        (∀ a d, s.adm = some a → s.dis = some d →
            s.los_days = some (d - a + 1) ∧ 1 ≤ d - a + 1 ∧ d - a + 1 ≤ 730) ∧
          ((s.adm = none ∨ s.dis = none) → s.los_days = none)) ∧
      ∀ k ∈ spellKeys (df.map cleanDates),
        (addSpellId (recomputeLos (collapseRow (df.map cleanDates) k)) ∈
            clean_and_collapse df ↔
          ((recomputeLos (collapseRow (df.map cleanDates) k)).los_days = none ∨
            ∃ l, (recomputeLos (collapseRow (df.map cleanDates) k)).los_days =
                some l ∧ 1 ≤ l ∧ l ≤ 730)) := by
  constructor
  · intro s hs
    obtain ⟨k, hk, hok, rfl⟩ := mem_clean_and_collapse.mp hs
    rcases k with ⟨k1, k2, k3⟩
    constructor
    · intro a d ha hd
      have ha2 : k2 = some a := ha
      have hd2 : k3 = some d := hd
      subst ha2
      subst hd2
      have hlr : (recomputeLos (collapseRow (df.map cleanDates)
          (k1, some a, some d))).los_days = some (d - a + 1) := rfl
      refine ⟨hlr, ?_⟩
      rcases (losOk_iff _).mp hok with hnone | ⟨l, hl, hge, hle⟩
      · exact absurd (hnone.symm.trans hlr) (by simp)
      · have hinj : l = d - a + 1 := by injection hl.symm.trans hlr
        subst hinj
        exact ⟨hge, hle⟩
    · intro hmiss
      show (recomputeLos (collapseRow (df.map cleanDates) (k1, k2, k3))).los_days
        = none
      rcases hmiss with ha | hd
      · have h0 : k2 = none := ha
        subst h0
        rcases k3 with _ | d <;> rfl
      · have h0 : k3 = none := hd
        subst h0
        rfl
  · intro k hk
    constructor
    · intro hm
      obtain ⟨j, _, hokj, hrow⟩ := mem_clean_and_collapse.mp hm
      have hkj : j = k := outRow_inj hrow.symm
      rw [hkj] at hokj
      exact (losOk_iff _).mp hokj
    · intro hr
      exact mem_clean_and_collapse.mpr ⟨k, hk, (losOk_iff _).mpr hr, rfl⟩

/-- C2 witness: a spell of recomputed LOS exactly 730 is kept; one of
recomputed LOS 731 is dropped. -/
theorem C2_los_filter_witness :
    (addSpellId (recomputeLos (collapseRow ([ep730].map cleanDates)
        (some "P", some 0, some 729))) ∈ clean_and_collapse [ep730]) ∧
      ¬ (addSpellId (recomputeLos (collapseRow ([ep731].map cleanDates)
          (some "P", some 0, some 730))) ∈ clean_and_collapse [ep731]) := by
  constructor
  · exact ((C2_los_filter [ep730]).2 _ (by decide)).mpr (by decide)
  · intro hm
    have := ((C2_los_filter [ep731]).2 _ (by decide)).mp hm
    revert this
    decide

/-! ## Claim C3 -/

theorem cleanDate_some {o : Option Date} {a : Date} (h : cleanDate o = some a) :
    CUTOFF ≤ a := by
  rcases o with _ | x
  · exact absurd h (by simp [cleanDate])
  · have h' : (if x < CUTOFF then (none : Option Date) else some x) = some a := h
    split_ifs at h' with hlt
    have hxa : x = a := by injection h'
    rw [← hxa]
    exact not_lt.mp hlt

/-- C3: each of the two date fields is repaired independently before any
length-of-stay computation: an unparseable value is missing, a date strictly
before 1900-01-01 becomes missing, a date on or after 1900-01-01 is kept
unchanged — and consequently every date surviving into the output is on or
after 1900-01-01. -/
theorem C3_date_repair :
    (∀ e : Episode,
        (cleanDates e).admidate = cleanDate e.admidate ∧
          (cleanDates e).disdate = cleanDate e.disdate) ∧
      cleanDate none = none ∧
      (∀ x : Date, x < CUTOFF → cleanDate (some x) = none) ∧
      (∀ x : Date, CUTOFF ≤ x → cleanDate (some x) = some x) ∧
      ∀ (df : List Episode), ∀ s ∈ clean_and_collapse df,
        (∀ a, s.adm = some a → CUTOFF ≤ a) ∧
          (∀ d, s.dis = some d → CUTOFF ≤ d) := by
  refine ⟨fun e => ⟨rfl, rfl⟩, rfl, ?_, ?_, ?_⟩
  · intro x hx
    simp [cleanDate, hx]
  · intro x hx
    have hnl : ¬ x < CUTOFF := not_lt.mpr hx
    simp [cleanDate, hnl]
  · intro df s hs
    obtain ⟨k, hk, _, rfl⟩ := mem_clean_and_collapse.mp hs
    obtain ⟨_, h2, h3⟩ := outRow_key (df.map cleanDates) k
    obtain ⟨e0, he0, hkey⟩ := mem_spellKeys.mp hk
    obtain ⟨e1, _, rfl⟩ := List.mem_map.mp he0
    constructor
    · intro a ha
      rw [h2] at ha
      rw [← hkey] at ha
      exact cleanDate_some ha
    · intro d hd
      rw [h3] at hd
      rw [← hkey] at hd
      exact cleanDate_some hd

/-- C3 witness: the day before the cutoff is nulled, the cutoff day itself
and later days are preserved, and a pre-1900 date never reaches the output. -/
theorem C3_date_repair_witness :
    cleanDate (some (CUTOFF - 1)) = none ∧ cleanDate (some CUTOFF) = some CUTOFF :=
  ⟨C3_date_repair.2.2.1 (CUTOFF - 1) (by decide),
    C3_date_repair.2.2.2.1 CUTOFF (by decide)⟩

/-! ## Claim C5 -/

/-- C5: for deciles 1..10 the quintile `(d-1)//2 + 1` lies in [1,5], maps
deciles 1,2 to 1 and 9,10 to 5, equals the ceiling of d/2 (characterised by
d ≤ 2q < d+2), and is monotone in the decile. -/
theorem C5_quintile (d e : Int) (hd1 : 1 ≤ d) (hd10 : d ≤ 10)
    (he1 : 1 ≤ e) (he10 : e ≤ 10) :
    (1 ≤ imd_quintile_of_decile d ∧ imd_quintile_of_decile d ≤ 5) ∧
      ((d = 1 ∨ d = 2) → imd_quintile_of_decile d = 1) ∧
      ((d = 9 ∨ d = 10) → imd_quintile_of_decile d = 5) ∧
      (d ≤ 2 * imd_quintile_of_decile d ∧ 2 * imd_quintile_of_decile d < d + 2) ∧
      (d ≤ e → imd_quintile_of_decile d ≤ imd_quintile_of_decile e) := by
  interval_cases d <;> interval_cases e <;> decide

/-- C5 witness at deciles 2 and 9. -/
theorem C5_quintile_witness :
    imd_quintile_of_decile 2 = 1 ∧ imd_quintile_of_decile 9 = 5 ∧
      imd_quintile_of_decile 2 ≤ imd_quintile_of_decile 9 := by
  have h2 := C5_quintile 2 9 (by decide) (by decide) (by decide) (by decide)
  have h9 := C5_quintile 9 10 (by decide) (by decide) (by decide) (by decide)
  exact ⟨h2.2.1 (Or.inr rfl), h9.2.2.1 (Or.inl rfl), h2.2.2.2.2 (by decide)⟩

/-! ## Claim C10 -/

/-- C10: in a spell group all of whose episodes have a missing
admission-method code, the output `any_emerg` is `false`, not null: the
COALESCE turns each NULL code into the empty string before its first
character is compared with '2', so `BOOL_OR` aggregates real booleans. -/
theorem C10_any_emerg (df : List Episode) (s : Spell)
    (hs : s ∈ clean_and_collapse df)
    (hall : ∀ e ∈ groupOf (df.map cleanDates) (s.pseudo_hesid, s.adm, s.dis),
      e.admimeth = none) :
    s.any_emerg = some false ∧ emergExpr none = some false := by
  obtain ⟨k, hk, _, rfl⟩ := mem_clean_and_collapse.mp hs
  obtain ⟨h1, h2, h3⟩ := outRow_key (df.map cleanDates) k
  have hkproj : (k.1, k.2.1, k.2.2) = k := rfl
  rw [h1, h2, h3, hkproj] at hall
  refine ⟨?_, rfl⟩
  rw [outRow_any_emerg]
  -- the group is nonempty, and every element contributes `some false`
  obtain ⟨e0, he0, hkey⟩ := mem_spellKeys.mp hk
  have he0g : e0 ∈ groupOf (df.map cleanDates) k := by
    rw [mem_groupOf]
    exact ⟨he0, hkey⟩
  have hmapall : ∀ b ∈ (groupOf (df.map cleanDates) k).map
      (fun e => emergExpr e.admimeth), b = some false := by
    intro b hb
    obtain ⟨e, he, rfl⟩ := List.mem_map.mp hb
    rw [hall e he]
    rfl
  have hmem : (some false) ∈ (groupOf (df.map cleanDates) k).map
      (fun e => emergExpr e.admimeth) := by
    have hx : emergExpr e0.admimeth ∈ (groupOf (df.map cleanDates) k).map
        (fun e => emergExpr e.admimeth) := List.mem_map.mpr ⟨e0, he0g, rfl⟩
    rw [hall e0 he0g] at hx
    exact hx
  unfold boolOr
  have hfall : ∀ b ∈ ((groupOf (df.map cleanDates) k).map
      (fun e => emergExpr e.admimeth)).filterMap id, b = false := by
    intro b hb
    obtain ⟨ob, hob, hid⟩ := List.mem_filterMap.mp hb
    have hobf := hmapall ob hob
    rw [hobf] at hid
    have hsb : (some false : Option Bool) = some b := hid
    have hfb : false = b := by injection hsb
    exact hfb.symm
  have hfmem : false ∈ ((groupOf (df.map cleanDates) k).map
      (fun e => emergExpr e.admimeth)).filterMap id :=
    List.mem_filterMap.mpr ⟨some false, hmem, rfl⟩
  have hne : ¬ (((groupOf (df.map cleanDates) k).map
      (fun e => emergExpr e.admimeth)).filterMap id).isEmpty = true := by
    intro hc
    rw [List.isEmpty_iff] at hc
    rw [hc] at hfmem
    exact absurd hfmem (by simp)
  rw [if_neg hne]
  have hany : (((groupOf (df.map cleanDates) k).map
      (fun e => emergExpr e.admimeth)).filterMap id).any id = false := by
    rw [List.any_eq_false]
    intro b hb
    rw [hfall b hb]
    simp
  rw [hany]

/-- C10 witness: a one-episode group with a missing admission method. -/
theorem C10_any_emerg_witness :
    (addSpellId (recomputeLos (collapseRow ([ep730].map cleanDates)
        (some "P", some 0, some 729)))).any_emerg = some false :=
  (C10_any_emerg [ep730] _ (by decide) (by decide)).1

/-! ## Claims C7, C8, C9 -/

theorem fileLe_total (a b : String) : fileLe a b ∨ fileLe b a := by
  unfold fileLe strLe
  cases h : strLt b a with
  | false => exact Or.inl rfl
  | true => exact Or.inr (by rw [strLt_asymm h]; rfl)

theorem fileLe_trans {a b c : String} (h1 : fileLe a b) (h2 : fileLe b c) :
    fileLe a c := by
  unfold fileLe strLe at h1 h2 ⊢
  have hba : strLt b a = false := by
    cases h : strLt b a with
    | false => rfl
    | true => rw [h] at h1; exact absurd h1 (by decide)
  have hcb : strLt c b = false := by
    cases h : strLt c b with
    | false => rfl
    | true => rw [h] at h2; exact absurd h2 (by decide)
  cases hca : strLt c a with
  | false => rfl
  | true =>
    exfalso
    by_cases hab : strLt a b = true
    · have := strLt_trans hca hab
      rw [hcb] at this
      exact absurd this (by decide)
    · have hyz : a = b := strLt_connex (bool_eq_false hab) hba
      rw [hyz] at hca
      rw [hcb] at hca
      exact absurd hca (by decide)

instance : IsTotal String fileLe := ⟨fileLe_total⟩

instance : IsTrans String fileLe := ⟨fun _ _ _ => fileLe_trans⟩

theorem pySliceFromNeg_pos (l : List String) (n : Int) (h0 : 0 < n) :
    pySliceFromNeg l n = l.drop (l.length - n.toNat) := by
  simp only [pySliceFromNeg]
  have hlt : -n < 0 := by omega
  rw [if_pos hlt]
  congr 1
  omega

theorem pySliceFromNeg_zero (l : List String) : pySliceFromNeg l 0 = l := by
  simp only [pySliceFromNeg]
  have hlt : ¬ ((-(0 : Int)) < 0) := by omega
  rw [if_neg hlt]
  have hz : (min (l.length : Int) (-(0 : Int))).toNat = 0 := by omega
  rw [hz]
  exact List.drop_zero l

theorem isEmpty_false_of_ne_nil {l : List String} (h : l ≠ []) :
    l.isEmpty = false := by
  cases hi : l.isEmpty with
  | false => rfl
  | true => exact absurd (List.isEmpty_iff.mp hi) h

/-- C7: with a positive file-count limit `n` (at most the number of files),
the loader returns exactly the lexicographically last `n` filenames of the
sorted listing: the returned list is the `n`-suffix of a sorted permutation
of the input names. -/
theorem C7_last_n (files : List String) (n : Int) (h0 : 0 < n)
    (hn : n.toNat ≤ files.length) :
    list_year_csvs files (some n) =
        Except.ok ((List.insertionSort fileLe files).drop
          (files.length - n.toNat)) ∧
      ((List.insertionSort fileLe files).drop
          (files.length - n.toNat)).length = n.toNat ∧
      List.Sorted fileLe (List.insertionSort fileLe files) ∧
      (List.insertionSort fileLe files).Perm files := by
  have hperm := List.perm_insertionSort fileLe files
  have hlen : (List.insertionSort fileLe files).length = files.length :=
    hperm.length_eq
  have hdroplen : ((List.insertionSort fileLe files).drop
      (files.length - n.toNat)).length = n.toNat := by
    rw [List.length_drop, hlen]
    omega
  refine ⟨?_, hdroplen, List.sorted_insertionSort fileLe files, hperm⟩
  have hred : list_year_csvs files (some n) =
      (if (pySliceFromNeg (List.insertionSort fileLe files) n).isEmpty = true
        then Except.error "No CSV files found under path"
        else Except.ok (pySliceFromNeg (List.insertionSort fileLe files) n)) :=
    rfl
  rw [hred, pySliceFromNeg_pos _ _ h0, hlen]
  have hne : ((List.insertionSort fileLe files).drop
      (files.length - n.toNat)).isEmpty = false := by
    apply isEmpty_false_of_ne_nil
    intro hc
    rw [hc] at hdroplen
    simp at hdroplen
    omega
  simp [hne]

/-- C7 witness: with n_years = 2 over {2019, 2020, 2021} exactly the 2020
and 2021 files are kept. -/
theorem C7_last_n_witness :
    list_year_csvs ["2021.csv", "2019.csv", "2020.csv"] (some 2) =
      Except.ok ["2020.csv", "2021.csv"] := by
  have h := (C7_last_n ["2021.csv", "2019.csv", "2020.csv"] 2 (by decide)
    (by decide)).1
  rw [h]
  rfl

/-- C8: an empty directory listing raises the fatal not-found error, for any
configured limit, before any file is read. -/
theorem C8_empty_dir (n : Option Int) :
    list_year_csvs [] n = Except.error "No CSV files found under path" := by
  rcases n with _ | n
  · rfl
  · unfold list_year_csvs
    simp [pySliceFromNeg]

/-- C9: a limit of `n_years = 0` selects the whole sorted listing (the
Python slice `files[-0:]` is the entire list), not the empty list. -/
theorem C9_zero_years (files : List String) (h : files ≠ []) :
    list_year_csvs files (some 0) =
      Except.ok (List.insertionSort fileLe files) := by
  have hred : list_year_csvs files (some 0) =
      (if (pySliceFromNeg (List.insertionSort fileLe files) 0).isEmpty = true
        then Except.error "No CSV files found under path"
        else Except.ok (pySliceFromNeg (List.insertionSort fileLe files) 0)) :=
    rfl
  rw [hred, pySliceFromNeg_zero]
  have hslen : List.insertionSort fileLe files ≠ [] := by
    intro hc
    apply h
    have hperm := List.perm_insertionSort fileLe files
    rw [hc] at hperm
    exact (hperm.symm).eq_nil
  simp [isEmpty_false_of_ne_nil hslen]

/-- C9 witness: a two-file directory with a zero limit reads both files. -/
theorem C9_zero_years_witness :
    list_year_csvs ["b.csv", "a.csv"] (some 0) =
      Except.ok ["a.csv", "b.csv"] := by
  have h := C9_zero_years ["b.csv", "a.csv"] (by decide)
  rw [h]
  rfl

/-! ## Claim C6 -/

theorem dropDupAux_subset : ∀ (l : List ImdRow) (seen : List (Option String))
    (r : ImdRow), r ∈ dropDupAux seen l → r ∈ l := by
  intro l
  induction l with
  | nil =>
    intro seen r h
    exact absurd h (by simp [dropDupAux])
  | cons x xs ih =>
    intro seen r h
    unfold dropDupAux at h
    split_ifs at h with hm
    · exact List.mem_cons_of_mem _ (ih seen r h)
    · rcases List.mem_cons.mp h with h | h
      · rw [h]
        exact List.mem_cons_self _ _
      · exact List.mem_cons_of_mem _ (ih _ r h)

theorem dropDupAux_countP : ∀ (l : List ImdRow) (seen : List (Option String))
    (key : Option String),
    (key ∈ seen →
      (dropDupAux seen l).countP (fun r => r.lsoa11 == key) = 0) ∧
    (dropDupAux seen l).countP (fun r => r.lsoa11 == key) ≤ 1 := by
  intro l
  induction l with
  | nil =>
    intro seen key
    simp [dropDupAux]
  | cons x xs ih =>
    intro seen key
    unfold dropDupAux
    split_ifs with hm
    · exact ih seen key
    · constructor
      · intro hk
        rw [List.countP_cons]
        have hx : (x.lsoa11 == key) = false := by
          cases hbe : x.lsoa11 == key with
          | false => rfl
          | true =>
            exfalso
            have hxk : x.lsoa11 = key := eq_of_beq hbe
            rw [hxk] at hm
            exact hm hk
        rw [hx]
        have h0 := (ih (x.lsoa11 :: seen) key).1 (List.mem_cons_of_mem _ hk)
        simp [h0]
      · rw [List.countP_cons]
        cases hbe : (x.lsoa11 == key) with
        | false => simpa using (ih (x.lsoa11 :: seen) key).2
        | true =>
          have hxk : x.lsoa11 = key := eq_of_beq hbe
          have hmem : key ∈ x.lsoa11 :: seen := by
            rw [hxk]
            exact List.mem_cons_self _ _
          have h0 := (ih (x.lsoa11 :: seen) key).1 hmem
          simp [h0]

theorem mergeRow_length (imd : List ImdRow) (e : Episode)
    (h1 : imd.countP (fun r => r.lsoa11 == e.lsoa11) ≤ 1) :
    (mergeRow imd e).length = 1 := by
  unfold mergeRow
  by_cases hemp : (imd.filter (fun r => r.lsoa11 == e.lsoa11)).isEmpty = true
  · simp [hemp]
  · have hlen1 : (imd.filter (fun r => r.lsoa11 == e.lsoa11)).length ≤ 1 := by
      rw [← List.countP_eq_length_filter]
      exact h1
    have hnn : imd.filter (fun r => r.lsoa11 == e.lsoa11) ≠ [] := by
      intro hc
      rw [List.isEmpty_iff] at hemp
      exact hemp hc
    have hpos : 0 < (imd.filter (fun r => r.lsoa11 == e.lsoa11)).length :=
      List.length_pos.mpr hnn
    simp only [if_neg hemp, List.length_map]
    omega

theorem leftMergeImd_length (df : List Episode) (imd : List ImdRow)
    (h1 : ∀ key, imd.countP (fun r => r.lsoa11 == key) ≤ 1) :
    (leftMergeImd df imd).length = df.length := by
  induction df with
  | nil => rfl
  | cons e es ih =>
    have hstep : leftMergeImd (e :: es) imd =
        mergeRow imd e ++ leftMergeImd es imd := rfl
    rw [hstep, List.length_append, ih, mergeRow_length imd e (h1 e.lsoa11),
      List.length_cons]
    omega

/-- C6: the deduplicated left join neither multiplies nor drops rows — the
result has exactly one row per input episode — and an episode whose
geography code is absent from the lookup comes out with a null quintile. -/
theorem C6_attach_imd (df : List Episode) (imd : List ImdRow) :
    (attach_imd df imd).length = df.length ∧
      ∀ e ∈ df, (∀ r ∈ imd, r.lsoa11 ≠ e.lsoa11) →
        { e with imd_quintile := none } ∈ attach_imd df imd := by
  constructor
  · unfold attach_imd
    apply leftMergeImd_length
    intro key
    exact (dropDupAux_countP imd [] key).2
  · intro e he hnone
    unfold attach_imd leftMergeImd
    apply List.mem_flatMap.mpr
    refine ⟨e, he, ?_⟩
    have hfilter : (dropDuplicatesLsoa imd).filter
        (fun r => r.lsoa11 == e.lsoa11) = [] := by
      rw [List.filter_eq_nil_iff]
      intro r hr hbeq
      exact hnone r (dropDupAux_subset imd [] r hr) (eq_of_beq hbeq)
    unfold mergeRow
    rw [hfilter]
    simp

/-- C6 witness: a lookup with duplicate codes joins without multiplying the
single episode, and an unmatched code yields a null quintile. -/
theorem C6_attach_imd_witness :
    (attach_imd [ep730]
        [⟨some "L", some 3⟩, ⟨some "L", some 4⟩]).length = 1 ∧
      { ep730 with imd_quintile := none } ∈
        attach_imd [ep730] [⟨some "L", some 3⟩, ⟨some "L", some 4⟩] := by
  have h := C6_attach_imd [ep730] [⟨some "L", some 3⟩, ⟨some "L", some 4⟩]
  exact ⟨h.1, h.2 ep730 (by decide) (by decide)⟩

/-! ## Claim C4: the textual date rendering -/

theorem splitSep_inj : ∀ (x1 : List Char) {r1 : List Char} (x2 : List Char)
    {r2 : List Char}, '|' ∉ x1 → '|' ∉ x2 →
    x1 ++ '|' :: r1 = x2 ++ '|' :: r2 → x1 = x2 ∧ r1 = r2 := by
  intro x1
  induction x1 with
  | nil =>
    intro r1 x2 r2 h1 h2 heq
    cases x2 with
    | nil =>
      rw [List.nil_append, List.nil_append] at heq
      have ht : r1 = r2 := by injection heq
      exact ⟨rfl, ht⟩
    | cons c cs =>
      exfalso
      rw [List.nil_append, List.cons_append] at heq
      have hc : '|' = c := by injection heq
      apply h2
      rw [← hc]
      exact List.mem_cons_self _ _
  | cons a as ih =>
    intro r1 x2 r2 h1 h2 heq
    cases x2 with
    | nil =>
      exfalso
      rw [List.nil_append, List.cons_append] at heq
      have hc : a = '|' := by injection heq
      apply h1
      rw [← hc]
      exact List.mem_cons_self _ _
    | cons c cs =>
      rw [List.cons_append, List.cons_append] at heq
      have hac : a = c := by injection heq
      have htail : as ++ '|' :: r1 = cs ++ '|' :: r2 := by injection heq
      have h1' : '|' ∉ as := fun hm => h1 (List.mem_cons_of_mem _ hm)
      have h2' : '|' ∉ cs := fun hm => h2 (List.mem_cons_of_mem _ hm)
      obtain ⟨hx, hr⟩ := ih cs h1' h2' htail
      exact ⟨by rw [hac, hx], hr⟩

theorem rev_sep (X Y : List Char) :
    (X ++ '|' :: Y).reverse = Y.reverse ++ '|' :: X.reverse := by
  rw [List.reverse_append, List.reverse_cons]
  simp [List.append_assoc]

theorem spellIdParts_inj {p1 p2 : String} {A1 D1 A2 D2 : List Char}
    (hA1 : '|' ∉ A1) (hD1 : '|' ∉ D1) (hA2 : '|' ∉ A2) (hD2 : '|' ∉ D2)
    (h : p1.data ++ '|' :: (A1 ++ '|' :: D1) =
      p2.data ++ '|' :: (A2 ++ '|' :: D2)) :
    p1 = p2 ∧ A1 = A2 ∧ D1 = D2 := by
  have hrev := congrArg List.reverse h
  rw [rev_sep, rev_sep, rev_sep, rev_sep, List.append_assoc, List.append_assoc,
    List.cons_append, List.cons_append] at hrev
  have hD1r : '|' ∉ D1.reverse := fun hm => hD1 (List.mem_reverse.mp hm)
  have hD2r : '|' ∉ D2.reverse := fun hm => hD2 (List.mem_reverse.mp hm)
  obtain ⟨hD, hrest⟩ := splitSep_inj D1.reverse D2.reverse hD1r hD2r hrev
  have hA1r : '|' ∉ A1.reverse := fun hm => hA1 (List.mem_reverse.mp hm)
  have hA2r : '|' ∉ A2.reverse := fun hm => hA2 (List.mem_reverse.mp hm)
  obtain ⟨hA, hP⟩ := splitSep_inj A1.reverse A2.reverse hA1r hA2r hrest
  refine ⟨?_, ?_, ?_⟩
  · apply String.ext
    exact List.reverse_injective hP
  · exact List.reverse_injective hA
  · exact List.reverse_injective hD

theorem digitsRev_lt : ∀ (fuel n : Nat), ∀ d ∈ digitsRev fuel n, d < 10 := by
  intro fuel
  induction fuel with
  | zero =>
    intro n d hd
    simp [digitsRev] at hd
  | succ f ih =>
    intro n d hd
    cases n with
    | zero => simp [digitsRev] at hd
    | succ m =>
      rw [digitsRev] at hd
      rcases List.mem_cons.mp hd with h | h
      · rw [h]
        exact Nat.mod_lt _ (by norm_num)
      · exact ih _ d h

theorem digitsRev_eq_digits : ∀ (fuel n : Nat), n ≤ fuel →
    digitsRev fuel n = Nat.digits 10 n := by
  intro fuel
  induction fuel with
  | zero =>
    intro n h
    have h0 : n = 0 := by omega
    rw [h0, Nat.digits_zero]
    rfl
  | succ f ih =>
    intro n h
    cases n with
    | zero =>
      rw [Nat.digits_zero]
      rfl
    | succ m =>
      rw [digitsRev, Nat.digits_def' (by norm_num : (1 : ℕ) < 10)
        (Nat.succ_pos m)]
      congr 1
      apply ih
      have : (m + 1) / 10 < m + 1 := Nat.div_lt_self (Nat.succ_pos m)
        (by norm_num)
      omega

theorem digitChar_ne_of_lt : ∀ d : Nat, d < 10 →
    Nat.digitChar d ≠ '|' ∧ Nat.digitChar d ≠ '-' := by
  intro d hd
  interval_cases d <;> exact ⟨by decide, by decide⟩

theorem digitChar_inj10 : ∀ a b : Nat, a < 10 → b < 10 →
    Nat.digitChar a = Nat.digitChar b → a = b := by
  intro a b ha hb
  interval_cases a <;> interval_cases b <;> decide

theorem natChars_shape (n : Nat) :
    ∀ c ∈ natChars n, ∃ d, d < 10 ∧ c = Nat.digitChar d := by
  unfold natChars
  split_ifs with h
  · intro c hc
    have hc0 : c = '0' := by
      rcases List.mem_cons.mp hc with h' | h'
      · exact h'
      · exact absurd h' (by simp)
    exact ⟨0, by norm_num, by rw [hc0]; rfl⟩
  · intro c hc
    rw [List.mem_reverse] at hc
    obtain ⟨d, hd, rfl⟩ := List.mem_map.mp hc
    exact ⟨d, digitsRev_lt n n d hd, rfl⟩

theorem natChars_no_sep (n : Nat) : '|' ∉ natChars n ∧ '-' ∉ natChars n := by
  constructor
  · intro hm
    obtain ⟨d, hd, hc⟩ := natChars_shape n _ hm
    exact (digitChar_ne_of_lt d hd).1 hc.symm
  · intro hm
    obtain ⟨d, hd, hc⟩ := natChars_shape n _ hm
    exact (digitChar_ne_of_lt d hd).2 hc.symm

theorem map_digitChar_inj : ∀ (l1 l2 : List Nat), (∀ d ∈ l1, d < 10) →
    (∀ d ∈ l2, d < 10) → l1.map Nat.digitChar = l2.map Nat.digitChar →
    l1 = l2 := by
  intro l1
  induction l1 with
  | nil =>
    intro l2 _ _ h
    cases l2 with
    | nil => rfl
    | cons c cs => exact absurd h (by simp)
  | cons a as ih =>
    intro l2 h1 h2 h
    cases l2 with
    | nil => exact absurd h (by simp)
    | cons c cs =>
      simp only [List.map_cons] at h
      have hh : Nat.digitChar a = Nat.digitChar c := by injection h
      have ht : as.map Nat.digitChar = cs.map Nat.digitChar := by injection h
      have hac : a = c := digitChar_inj10 a c
        (h1 a (List.mem_cons_self _ _)) (h2 c (List.mem_cons_self _ _)) hh
      have hrest : as = cs := ih cs
        (fun d hd => h1 d (List.mem_cons_of_mem _ hd))
        (fun d hd => h2 d (List.mem_cons_of_mem _ hd)) ht
      rw [hac, hrest]

theorem digits_map_eq_singleton_zero {n : Nat} (hn : ¬ n = 0)
    (h : (Nat.digits 10 n).map Nat.digitChar = ['0']) : False := by
  cases hd : Nat.digits 10 n with
  | nil =>
    rw [hd] at h
    exact absurd h (by simp)
  | cons d ds =>
    rw [hd] at h
    simp only [List.map_cons] at h
    have h1 : Nat.digitChar d = '0' := by injection h
    have h2 : ds.map Nat.digitChar = [] := by injection h
    have hds : ds = [] := by
      cases ds with
      | nil => rfl
      | cons x xs => exact absurd h2 (by simp)
    have hdlt : d < 10 := Nat.digits_lt_base (by norm_num)
      (by rw [hd]; exact List.mem_cons_self _ _)
    have hd0 : d = 0 := digitChar_inj10 d 0 hdlt (by norm_num)
      (by rw [h1]; rfl)
    have hof := Nat.ofDigits_digits 10 n
    rw [hd, hds, hd0] at hof
    simp [Nat.ofDigits] at hof
    exact hn hof.symm

theorem natChars_inj : ∀ {m n : Nat}, natChars m = natChars n → m = n := by
  intro m n h
  unfold natChars at h
  split_ifs at h with hm hn hn
  · rw [hm, hn]
  · exfalso
    rw [digitsRev_eq_digits n n le_rfl] at h
    have h' : (Nat.digits 10 n).map Nat.digitChar = ['0'] := by
      have := congrArg List.reverse h
      simpa using this.symm
    exact digits_map_eq_singleton_zero hn h'
  · exfalso
    rw [digitsRev_eq_digits m m le_rfl] at h
    have h' : (Nat.digits 10 m).map Nat.digitChar = ['0'] := by
      have := congrArg List.reverse h
      simpa using this
    exact digits_map_eq_singleton_zero hm h'
  · rw [digitsRev_eq_digits m m le_rfl, digitsRev_eq_digits n n le_rfl] at h
    have hmap : (Nat.digits 10 m).map Nat.digitChar =
        (Nat.digits 10 n).map Nat.digitChar := by
      have := congrArg List.reverse h
      simpa using this
    have hdig : Nat.digits 10 m = Nat.digits 10 n :=
      map_digitChar_inj _ _
        (fun d hd => Nat.digits_lt_base (by norm_num) hd)
        (fun d hd => Nat.digits_lt_base (by norm_num) hd) hmap
    have h1 := Nat.ofDigits_digits 10 m
    have h2 := Nat.ofDigits_digits 10 n
    rw [← h1, ← h2, hdig]

theorem dateChars_no_sep (x : Date) : '|' ∉ dateChars x := by
  unfold dateChars
  split_ifs with h
  · intro hm
    rcases List.mem_cons.mp hm with h' | h'
    · exact absurd h' (by decide)
    · exact (natChars_no_sep _).1 h'
  · exact (natChars_no_sep _).1

theorem dateChars_inj : ∀ {x y : Date}, dateChars x = dateChars y → x = y := by
  intro x y h
  unfold dateChars at h
  split_ifs at h with hx hy hy
  · have ht : natChars (-x).toNat = natChars (-y).toNat := by injection h
    have htn : (-x).toNat = (-y).toNat := natChars_inj ht
    have h1 : ((-x).toNat : Int) = ((-y).toNat : Int) := congrArg _ htn
    rw [Int.toNat_of_nonneg (Int.neg_nonneg.mpr (le_of_lt hx)),
      Int.toNat_of_nonneg (Int.neg_nonneg.mpr (le_of_lt hy))] at h1
    exact neg_inj.mp h1
  · exfalso
    have hmem : '-' ∈ natChars y.toNat := by
      rw [← h]
      exact List.mem_cons_self _ _
    exact (natChars_no_sep _).2 hmem
  · exfalso
    have hmem : '-' ∈ natChars x.toNat := by
      rw [h]
      exact List.mem_cons_self _ _
    exact (natChars_no_sep _).2 hmem
  · have htn : x.toNat = y.toNat := natChars_inj h
    have h1 : (x.toNat : Int) = (y.toNat : Int) := congrArg _ htn
    rw [Int.toNat_of_nonneg (not_lt.mp hx),
      Int.toNat_of_nonneg (not_lt.mp hy)] at h1
    exact h1

theorem spellId_concat_data (p : String) (a d : Date) :
    (p ++ "|" ++ dateString a ++ "|" ++ dateString d).data =
      p.data ++ '|' :: (dateChars a ++ '|' :: dateChars d) := by
  have hsep : ("|" : String).data = ['|'] := rfl
  have hda : (dateString a).data = dateChars a := rfl
  have hdd : (dateString d).data = dateChars d := rfl
  rw [String.data_append, String.data_append, String.data_append,
    String.data_append, hsep, hda, hdd]
  simp [List.append_assoc]

theorem spellId_inj {p1 p2 : String} {a1 d1 a2 d2 : Date}
    (h : p1 ++ "|" ++ dateString a1 ++ "|" ++ dateString d1 =
      p2 ++ "|" ++ dateString a2 ++ "|" ++ dateString d2) :
    p1 = p2 ∧ a1 = a2 ∧ d1 = d2 := by
  have hdata := congrArg String.data h
  rw [spellId_concat_data, spellId_concat_data] at hdata
  obtain ⟨hp, hA, hD⟩ := spellIdParts_inj (dateChars_no_sep a1)
    (dateChars_no_sep d1) (dateChars_no_sep a2) (dateChars_no_sep d2) hdata
  exact ⟨hp, dateChars_inj hA, dateChars_inj hD⟩

theorem outRow_spell_id_none {df : List Episode} {k : SpellKey}
    (h : k.1 = none ∨ k.2.1 = none ∨ k.2.2 = none) :
    (addSpellId (recomputeLos (collapseRow df k))).spell_id = none := by
  rcases k with ⟨k1, k2, k3⟩
  rcases h with h | h | h
  · have h0 : k1 = none := h
    subst h0
    rcases k2 with _ | a <;> rcases k3 with _ | d <;> rfl
  · have h0 : k2 = none := h
    subst h0
    rcases k1 with _ | p <;> rcases k3 with _ | d <;> rfl
  · have h0 : k3 = none := h
    subst h0
    rcases k1 with _ | p <;> rcases k2 with _ | a <;> rfl

theorem outRow_spell_id_some {df : List Episode} {p : String} {a d : Date} :
    (addSpellId (recomputeLos (collapseRow df
        (some p, some a, some d)))).spell_id =
      some (p ++ "|" ++ dateString a ++ "|" ++ dateString d) := rfl

/-- C4 (amended): for output rows whose patient id and both dates are all
present, `spell_id` is the `|`-joined concatenation of the three and is
unique across such rows; a row with any missing component instead has a
null `spell_id` (the pandas nullable-string concatenation propagates the
missing value), and null ids can repeat. -/
theorem C4_spell_id (df : List Episode) :
    (∀ s ∈ clean_and_collapse df, ∀ p a d,
        s.pseudo_hesid = some p → s.adm = some a → s.dis = some d →
        s.spell_id = some (p ++ "|" ++ dateString a ++ "|" ++ dateString d)) ∧
      (∀ s ∈ clean_and_collapse df,
        (s.pseudo_hesid = none ∨ s.adm = none ∨ s.dis = none) →
        s.spell_id = none) ∧
      (∀ s ∈ clean_and_collapse df, ∀ t ∈ clean_and_collapse df,
        s.spell_id ≠ none → s.spell_id = t.spell_id → s = t) := by
  refine ⟨?_, ?_, ?_⟩
  · intro s hs p a d hp ha hd
    obtain ⟨k, hk, _, rfl⟩ := mem_clean_and_collapse.mp hs
    have hkey : k = (some p, some a, some d) := outRow_key_eq hp ha hd
    subst hkey
    exact outRow_spell_id_some
  · intro s hs hmiss
    obtain ⟨k, hk, _, rfl⟩ := mem_clean_and_collapse.mp hs
    apply outRow_spell_id_none
    obtain ⟨h1, h2, h3⟩ := outRow_key (df.map cleanDates) k
    rcases hmiss with h | h | h
    · exact Or.inl (by rw [← h1]; exact h)
    · exact Or.inr (Or.inl (by rw [← h2]; exact h))
    · exact Or.inr (Or.inr (by rw [← h3]; exact h))
  · intro s hs t ht hne heq
    obtain ⟨k, hk, _, rfl⟩ := mem_clean_and_collapse.mp hs
    obtain ⟨j, hj, _, rfl⟩ := mem_clean_and_collapse.mp ht
    rcases k with ⟨k1, k2, k3⟩
    -- a non-null id forces the whole key to be non-null
    rcases hk1 : k1 with _ | p
    · exact absurd (outRow_spell_id_none (Or.inl rfl)) (by rw [hk1] at hne; exact hne)
    rcases hk2 : k2 with _ | a
    · rw [hk1, hk2] at hne
      exact absurd (outRow_spell_id_none (Or.inr (Or.inl rfl))) hne
    rcases hk3 : k3 with _ | d
    · rw [hk1, hk2, hk3] at hne
      exact absurd (outRow_spell_id_none (Or.inr (Or.inr rfl))) hne
    subst hk1
    subst hk2
    subst hk3
    rcases j with ⟨j1, j2, j3⟩
    have hne2 : (addSpellId (recomputeLos (collapseRow (df.map cleanDates)
        (j1, j2, j3)))).spell_id ≠ none := by
      rw [← heq]
      exact hne
    rcases hj1 : j1 with _ | q
    · rw [hj1] at hne2
      exact absurd (outRow_spell_id_none (Or.inl rfl)) hne2
    rcases hj2 : j2 with _ | b
    · rw [hj1, hj2] at hne2
      exact absurd (outRow_spell_id_none (Or.inr (Or.inl rfl))) hne2
    rcases hj3 : j3 with _ | e
    · rw [hj1, hj2, hj3] at hne2
      exact absurd (outRow_spell_id_none (Or.inr (Or.inr rfl))) hne2
    subst hj1
    subst hj2
    subst hj3
    rw [outRow_spell_id_some, outRow_spell_id_some] at heq
    have hcat : p ++ "|" ++ dateString a ++ "|" ++ dateString d =
        q ++ "|" ++ dateString b ++ "|" ++ dateString e := by
      injection heq
    obtain ⟨hpq, hab, hde⟩ := spellId_inj hcat
    rw [hpq, hab, hde]

/-- C4 counterexample: two distinct output spells, each with a missing
admission date, share the missing `spell_id` — the stated uniqueness fails. -/
theorem C4_counterexample :
    ¬ (∀ s ∈ clean_and_collapse dfC4, ∀ t ∈ clean_and_collapse dfC4,
        s ≠ t → s.spell_id ≠ t.spell_id) := by
  decide

/-- C4 witness: the fully-dated episode produces id `P1|3|12`, and the
uniqueness part applies to it. -/
theorem C4_spell_id_witness :
    spW ∈ clean_and_collapse [epW] ∧
      spW.spell_id = some ("P1" ++ "|" ++ dateString 3 ++ "|" ++ dateString 12) :=
  ⟨by decide,
    (C4_spell_id [epW]).1 spW (by decide) "P1" 3 12 (by decide) (by decide)
      (by decide)⟩

end RespAdm
